import Mathlib

/-!
Verification of the cookie-factory style serialization library
(`src/functions.rs`): a shallow embedding of its writers and combinators,
and proofs of the specified properties.

Modelling choices, mirroring the source:
* A Rust `&mut [u8]` cursor into a caller-owned buffer is a `Cursor`:
  the whole backing buffer (`buf`, bytes as `Nat`, each the value of a `u8`)
  together with the current offset `off`; the Rust slice the writer sees is
  `buf` from `off` on, of length `remaining`.
* A writer `Fn(&mut [u8]) -> Result<&mut [u8], GenError>` becomes
  `Cursor → WResult`; since the buffer outlives a failed call in Rust,
  the error case carries the buffer state so "bytes unmodified" is statable.
* `u8`/`u16`/`u32`/`u64` arguments become `Nat`; a cast `as u8` or a mask
  `& 0xff` becomes `% 256`, `>>` becomes `>>>`.
-/

namespace CookieFactory

/-- The error type of the `gen` crate as used here: only the
`BufferTooSmall(usize)` variant ever occurs in this library. -/
inductive GenError where
  | BufferTooSmall (needed : Nat)
deriving DecidableEq, Repr

/-- A cursor over the caller-owned output buffer: the backing buffer and the
offset of its unwritten tail.  The Rust `&mut [u8]` passed to a writer is
`buf.drop off`. -/
structure Cursor where
  buf : List Nat
  off : Nat
deriving DecidableEq, Repr

/-- `out.len()` for the slice a cursor denotes. -/
def remaining (c : Cursor) : Nat := c.buf.length - c.off

/-- Result of one writer call.  On success the new cursor; on failure the
error together with the (untouched) backing buffer, which in Rust stays with
the caller. -/
inductive WResult where
  | ok (c : Cursor)
  | err (e : GenError) (buf : List Nat)
deriving DecidableEq, Repr

/-- `(&mut out[..data.len()]).copy_from_slice(data)` at offset `off` of the
backing buffer: splice `data` over `buf[off .. off+data.length)`. -/
def writeBytes (buf : List Nat) (off : Nat) (data : List Nat) : List Nat :=
  buf.take off ++ data ++ buf.drop (off + data.length)

/-- `slice(data)`: copy the payload bytes verbatim
(src/functions.rs lines 8-19). -/
def slice (data : List Nat) (out : Cursor) : WResult :=
  if remaining out < data.length then
    .err (.BufferTooSmall data.length) out.buf
  else
    .ok ⟨writeBytes out.buf out.off data, out.off + data.length⟩

/-- `string(data)`: copy the UTF-8 bytes of the text verbatim
(src/functions.rs lines 21-32).  `data` is the byte list
`data.as_ref().as_bytes()`; its length is `data.as_ref().len()`. -/
def string (data : List Nat) (out : Cursor) : WResult :=
  if remaining out < data.length then
    .err (.BufferTooSmall data.length) out.buf
  else
    .ok ⟨writeBytes out.buf out.off data, out.off + data.length⟩

/-- `skip(len)`: advance without writing (src/functions.rs lines 34-43). -/
def skip (len : Nat) (out : Cursor) : WResult :=
  if remaining out < len then
    .err (.BufferTooSmall len) out.buf
  else
    .ok ⟨out.buf, out.off + len⟩

/-- The byte written by `be_u8(i)`: `out[0] = i`, `i : u8`. -/
def beBytes8 (i : Nat) : List Nat := [i % 256]

/-- The bytes written by `be_u16(i)` in order:
`(i >> 8) & 0xff`, `i & 0xff`. -/
def beBytes16 (i : Nat) : List Nat := [(i >>> 8) % 256, i % 256]

/-- The bytes written by `be_u32(i)` in order. -/
def beBytes32 (i : Nat) : List Nat :=
  [(i >>> 24) % 256, (i >>> 16) % 256, (i >>> 8) % 256, i % 256]

/-- The bytes written by `be_u64(i)` in order. -/
def beBytes64 (i : Nat) : List Nat :=
  [(i >>> 56) % 256, (i >>> 48) % 256, (i >>> 40) % 256, (i >>> 32) % 256,
   (i >>> 24) % 256, (i >>> 16) % 256, (i >>> 8) % 256, i % 256]

/-- The byte written by `le_u8(i)`: `out[0] = i`, `i : u8`. -/
def leBytes8 (i : Nat) : List Nat := [i % 256]

/-- The bytes written by `le_u16(i)` in order:
`i & 0xff`, `(i >> 8) & 0xff`. -/
def leBytes16 (i : Nat) : List Nat := [i % 256, (i >>> 8) % 256]

/-- The bytes written by `le_u32(i)` in order. -/
def leBytes32 (i : Nat) : List Nat :=
  [i % 256, (i >>> 8) % 256, (i >>> 16) % 256, (i >>> 24) % 256]

/-- The bytes written by `le_u64(i)` in order. -/
def leBytes64 (i : Nat) : List Nat :=
  [i % 256, (i >>> 8) % 256, (i >>> 16) % 256, (i >>> 24) % 256,
   (i >>> 32) % 256, (i >>> 40) % 256, (i >>> 48) % 256, (i >>> 56) % 256]

/-- `be_u8(i)` (src/functions.rs lines 118-129): `len = 1`. -/
def be_u8 (i : Nat) (out : Cursor) : WResult :=
  if remaining out < 1 then
    .err (.BufferTooSmall 1) out.buf
  else
    .ok ⟨writeBytes out.buf out.off (beBytes8 i), out.off + 1⟩

/-- `be_u16(i)` (src/functions.rs lines 131-143): `len = 2`. -/
def be_u16 (i : Nat) (out : Cursor) : WResult :=
  if remaining out < 2 then
    .err (.BufferTooSmall 2) out.buf
  else
    .ok ⟨writeBytes out.buf out.off (beBytes16 i), out.off + 2⟩

/-- `be_u32(i)` (src/functions.rs lines 145-159): `len = 4`. -/
def be_u32 (i : Nat) (out : Cursor) : WResult :=
  if remaining out < 4 then
    .err (.BufferTooSmall 4) out.buf
  else
    .ok ⟨writeBytes out.buf out.off (beBytes32 i), out.off + 4⟩

/-- `be_u64(i)` (src/functions.rs lines 161-179): `len = 8`. -/
def be_u64 (i : Nat) (out : Cursor) : WResult :=
  if remaining out < 8 then
    .err (.BufferTooSmall 8) out.buf
  else
    .ok ⟨writeBytes out.buf out.off (beBytes64 i), out.off + 8⟩

/-- `le_u8(i)` (src/functions.rs lines 181-192): `len = 1`. -/
def le_u8 (i : Nat) (out : Cursor) : WResult :=
  if remaining out < 1 then
    .err (.BufferTooSmall 1) out.buf
  else
    .ok ⟨writeBytes out.buf out.off (leBytes8 i), out.off + 1⟩

/-- `le_u16(i)` (src/functions.rs lines 194-206): `len = 2`. -/
def le_u16 (i : Nat) (out : Cursor) : WResult :=
  if remaining out < 2 then
    .err (.BufferTooSmall 2) out.buf
  else
    .ok ⟨writeBytes out.buf out.off (leBytes16 i), out.off + 2⟩

/-- `le_u32(i)` (src/functions.rs lines 208-222): `len = 4`. -/
def le_u32 (i : Nat) (out : Cursor) : WResult :=
  if remaining out < 4 then
    .err (.BufferTooSmall 4) out.buf
  else
    .ok ⟨writeBytes out.buf out.off (leBytes32 i), out.off + 4⟩

/-- `le_u64(i)` (src/functions.rs lines 224-242): `len = 8`. -/
def le_u64 (i : Nat) (out : Cursor) : WResult :=
  if remaining out < 8 then
    .err (.BufferTooSmall 8) out.buf
  else
    .ok ⟨writeBytes out.buf out.off (leBytes64 i), out.off + 8⟩

/-- `pair(first, second)` (src/functions.rs lines 59-67): run `first`, on
success run `second` on the resulting cursor; the `?` operator returns a
failure of `first` unchanged. -/
def pair (first second : Cursor → WResult) (out : Cursor) : WResult :=
  match first out with
  | .ok out => second out
  | .err e b => .err e b

/-- `cond(condition, f)` (src/functions.rs lines 69-79). -/
def cond (condition : Bool) (f : Cursor → WResult) (out : Cursor) : WResult :=
  if condition then f out else .ok out

/-- `_all(values)` (src/functions.rs lines 82-94): the `for v in it` loop
threading the cursor, aborting on the first failure. -/
def _all : List (Cursor → WResult) → Cursor → WResult
  | [], out => .ok out
  | v :: rest, out =>
    match v out with
    | .ok out => _all rest out
    | .err e b => .err e b

/-- The `for v in it` loop of `separated_list` after the first element
(src/functions.rs lines 109-112): before each remaining element, `sep`. -/
def sepLoop (sep : Cursor → WResult) :
    List (Cursor → WResult) → Cursor → WResult
  | [], out => .ok out
  | v :: rest, out =>
    match sep out with
    | .err e b => .err e b
    | .ok out =>
      match v out with
      | .err e b => .err e b
      | .ok out => sepLoop sep rest out

/-- `separated_list(sep, values)` (src/functions.rs lines 96-116):
`it.next()` on an empty collection succeeds with the cursor unchanged;
otherwise the first element runs bare and the loop handles the rest. -/
def separated_list (sep : Cursor → WResult) :
    List (Cursor → WResult) → Cursor → WResult
  | [], out => .ok out
  | first :: rest, out =>
    match first out with
    | .err e b => .err e b
    | .ok out => sepLoop sep rest out

/-- Result of `position(f)`: on success the captured span (the bytes between
the recorded start address and the resulting cursor) and the continuation
cursor; on failure the propagated error with the buffer. -/
inductive PResult where
  | pok (span : List Nat) (c : Cursor)
  | perr (e : GenError) (buf : List Nat)
deriving DecidableEq, Repr

/-- `position(f)` (src/functions.rs lines 45-57): record `ptr` (here: the
offset `out.off`), run `f`; `len = out'.as_ptr() - ptr` is the offset
difference, and `from_raw_parts_mut(ptr, len)` is the current buffer content
over `[out.off, out.off + len)`. -/
def position (f : Cursor → WResult) (out : Cursor) : PResult :=
  match f out with
  | .err e b => .perr e b
  | .ok out2 =>
    .pok ((out2.buf.drop out.off).take (out2.off - out.off)) out2

/-!
The writers one can build from the library's public constructors and
combinators, as an inductive syntax; `denote` maps each constructor to the
embedded function above.  This is the universe over which the "for every
writer constructed by the library" claims are stated.
-/

mutual

inductive W where
  | slice (data : List Nat)
  | str (data : List Nat)
  | skip (len : Nat)
  | be_u8 (i : Nat)
  | be_u16 (i : Nat)
  | be_u32 (i : Nat)
  | be_u64 (i : Nat)
  | le_u8 (i : Nat)
  | le_u16 (i : Nat)
  | le_u32 (i : Nat)
  | le_u64 (i : Nat)
  | pair (first second : W)
  | cond (condition : Bool) (f : W)
  | all (values : WList)
  | sepList (sep : W) (values : WList)

inductive WList where
  | nil
  | cons (w : W) (ws : WList)

end

mutual

/-- The writer function a syntax tree denotes. -/
def denote : W → Cursor → WResult
  | .slice d => slice d
  | .str d => string d
  | .skip n => skip n
  | .be_u8 i => be_u8 i
  | .be_u16 i => be_u16 i
  | .be_u32 i => be_u32 i
  | .be_u64 i => be_u64 i
  | .le_u8 i => le_u8 i
  | .le_u16 i => le_u16 i
  | .le_u32 i => le_u32 i
  | .le_u64 i => le_u64 i
  | .pair f g => pair (denote f) (denote g)
  | .cond b f => cond b (denote f)
  | .all ws => _all (denoteList ws)
  | .sepList s ws => separated_list (denote s) (denoteList ws)

/-- Denotations of a list of writer syntax trees. -/
def denoteList : WList → List (Cursor → WResult)
  | .nil => []
  | .cons w ws => denote w :: denoteList ws

end

/-!
The suffix invariant: a successful writer call returns a cursor over the same
backing buffer (same length, prefix before the old offset untouched), with
the offset moved forward, still in bounds.
-/

/-- The relation between the input cursor and the cursor a successful writer
call returns. -/
def Inv (c c' : Cursor) : Prop :=
  c'.buf.length = c.buf.length ∧ c.off ≤ c'.off ∧ c'.off ≤ c'.buf.length ∧
  c'.buf.take c.off = c.buf.take c.off

/-- A writer function maintains the suffix invariant on every well-formed
cursor it succeeds on. -/
def Preserves (f : Cursor → WResult) : Prop :=
  ∀ c c', c.off ≤ c.buf.length → f c = .ok c' → Inv c c'

theorem inv_rfl (c : Cursor) (h : c.off ≤ c.buf.length) : Inv c c :=
  ⟨rfl, Nat.le_refl _, h, rfl⟩

theorem inv_trans {a b c : Cursor} (h1 : Inv a b) (h2 : Inv b c) : Inv a c := by
  obtain ⟨l1, o1, w1, t1⟩ := h1
  obtain ⟨l2, o2, w2, t2⟩ := h2
  refine ⟨l2.trans l1, o1.trans o2, w2, ?_⟩
  have h3 : c.buf.take a.off = (c.buf.take b.off).take a.off := by
    rw [List.take_take, Nat.min_eq_left o1]
  rw [h3, t2, List.take_take, Nat.min_eq_left o1, t1]

theorem length_writeBytes (buf : List Nat) (off : Nat) (d : List Nat)
    (h : off + d.length ≤ buf.length) :
    (writeBytes buf off d).length = buf.length := by
  simp [writeBytes]
  omega

theorem take_writeBytes (buf : List Nat) (off : Nat) (d : List Nat)
    (h : off ≤ buf.length) :
    (writeBytes buf off d).take off = buf.take off := by
  rw [writeBytes, List.append_assoc,
    List.take_append_of_le_length (by simp [h]), List.take_take,
    Nat.min_self]

theorem drop_writeBytes (buf : List Nat) (off : Nat) (d : List Nat)
    (h : off ≤ buf.length) :
    (writeBytes buf off d).drop off = d ++ buf.drop (off + d.length) := by
  rw [writeBytes, List.append_assoc,
    List.drop_append_of_le_length (by simp [h]),
    List.drop_eq_nil_of_le (by simp [h]), List.nil_append]

/-- Common shape of every byte-emitting primitive: guard on the remaining
length, then splice `d` (of length `k`) at the current offset and advance
by `k`. -/
theorem writeStep_pres (k : Nat) (d : List Nat) (hk : d.length = k) :
    Preserves (fun c => if remaining c < k then
      .err (.BufferTooSmall k) c.buf
      else .ok ⟨writeBytes c.buf c.off d, c.off + k⟩) := by
  intro c c' hwf h
  simp only [] at h
  split at h
  · cases h
  · rename_i hlt
    injection h with h
    subst h
    have hle : c.off + k ≤ c.buf.length := by
      unfold remaining at hlt
      omega
    refine ⟨length_writeBytes _ _ _ (by omega), Nat.le_add_right _ _, ?_, ?_⟩
    · rw [length_writeBytes _ _ _ (by omega)]
      exact hle
    · exact take_writeBytes _ _ _ hwf

theorem slice_pres (d : List Nat) : Preserves (slice d) :=
  writeStep_pres d.length d rfl

theorem string_pres (d : List Nat) : Preserves (string d) :=
  writeStep_pres d.length d rfl

theorem skip_pres (n : Nat) : Preserves (skip n) := by
  intro c c' hwf h
  by_cases hlt : remaining c < n
  · rw [skip, if_pos hlt] at h
    cases h
  · rw [skip, if_neg hlt] at h
    injection h with h
    subst h
    have hle : c.off + n ≤ c.buf.length := by
      unfold remaining at hlt
      omega
    exact ⟨rfl, Nat.le_add_right _ _, hle, rfl⟩

theorem be_u8_pres (i : Nat) : Preserves (be_u8 i) :=
  writeStep_pres 1 (beBytes8 i) rfl

theorem be_u16_pres (i : Nat) : Preserves (be_u16 i) :=
  writeStep_pres 2 (beBytes16 i) rfl

theorem be_u32_pres (i : Nat) : Preserves (be_u32 i) :=
  writeStep_pres 4 (beBytes32 i) rfl

theorem be_u64_pres (i : Nat) : Preserves (be_u64 i) :=
  writeStep_pres 8 (beBytes64 i) rfl

theorem le_u8_pres (i : Nat) : Preserves (le_u8 i) :=
  writeStep_pres 1 (leBytes8 i) rfl

theorem le_u16_pres (i : Nat) : Preserves (le_u16 i) :=
  writeStep_pres 2 (leBytes16 i) rfl

theorem le_u32_pres (i : Nat) : Preserves (le_u32 i) :=
  writeStep_pres 4 (leBytes32 i) rfl

theorem le_u64_pres (i : Nat) : Preserves (le_u64 i) :=
  writeStep_pres 8 (leBytes64 i) rfl

theorem pair_pres {f g : Cursor → WResult} (hf : Preserves f)
    (hg : Preserves g) : Preserves (pair f g) := by
  intro c c' hwf h
  rw [pair] at h
  cases h1 : f c with
  | ok c1 =>
    rw [h1] at h
    have i1 := hf c c1 hwf h1
    exact inv_trans i1 (hg c1 c' i1.2.2.1 h)
  | err e b =>
    rw [h1] at h
    cases h

theorem cond_pres {f : Cursor → WResult} (b : Bool) (hf : Preserves f) :
    Preserves (cond b f) := by
  intro c c' hwf h
  cases b with
  | true => exact hf c c' hwf h
  | false =>
    rw [cond, if_neg (by simp)] at h
    injection h with h
    subst h
    exact inv_rfl c hwf

theorem all_pres (l : List (Cursor → WResult))
    (hl : ∀ f ∈ l, Preserves f) : Preserves (_all l) := by
  induction l with
  | nil =>
    intro c c' hwf h
    rw [_all] at h
    injection h with h
    subst h
    exact inv_rfl c hwf
  | cons v rest ih =>
    intro c c' hwf h
    rw [_all] at h
    cases hv : v c with
    | ok c1 =>
      rw [hv] at h
      have i1 := hl v (List.mem_cons_self _ _) c c1 hwf hv
      exact inv_trans i1
        (ih (fun f hf => hl f (List.mem_cons_of_mem _ hf)) c1 c' i1.2.2.1 h)
    | err e b =>
      rw [hv] at h
      cases h

theorem sepLoop_pres (sep : Cursor → WResult) (l : List (Cursor → WResult))
    (hsep : Preserves sep) (hl : ∀ f ∈ l, Preserves f) :
    Preserves (sepLoop sep l) := by
  induction l with
  | nil =>
    intro c c' hwf h
    rw [sepLoop] at h
    injection h with h
    subst h
    exact inv_rfl c hwf
  | cons v rest ih =>
    intro c c' hwf h
    rw [sepLoop] at h
    split at h
    · cases h
    · rename_i c1 hs
      split at h
      · cases h
      · rename_i c2 hv
        have i1 := hsep c c1 hwf hs
        have i2 := hl v (List.mem_cons_self _ _) c1 c2 i1.2.2.1 hv
        exact inv_trans i1 (inv_trans i2
          (ih (fun f hf => hl f (List.mem_cons_of_mem _ hf)) c2 c'
            i2.2.2.1 h))

theorem separated_list_pres (sep : Cursor → WResult)
    (l : List (Cursor → WResult)) (hsep : Preserves sep)
    (hl : ∀ f ∈ l, Preserves f) : Preserves (separated_list sep l) := by
  cases l with
  | nil =>
    intro c c' hwf h
    rw [separated_list] at h
    injection h with h
    subst h
    exact inv_rfl c hwf
  | cons v rest =>
    intro c c' hwf h
    rw [separated_list] at h
    cases hv : v c with
    | ok c1 =>
      rw [hv] at h
      have i1 := hl v (List.mem_cons_self _ _) c c1 hwf hv
      exact inv_trans i1
        (sepLoop_pres sep rest hsep
          (fun f hf => hl f (List.mem_cons_of_mem _ hf)) c1 c' i1.2.2.1 h)
    | err e b =>
      rw [hv] at h
      cases h

mutual

/-- Every writer the library can construct maintains the suffix invariant. -/
theorem denote_pres : (w : W) → Preserves (denote w)
  | .slice d => slice_pres d
  | .str d => string_pres d
  | .skip n => skip_pres n
  | .be_u8 i => be_u8_pres i
  | .be_u16 i => be_u16_pres i
  | .be_u32 i => be_u32_pres i
  | .be_u64 i => be_u64_pres i
  | .le_u8 i => le_u8_pres i
  | .le_u16 i => le_u16_pres i
  | .le_u32 i => le_u32_pres i
  | .le_u64 i => le_u64_pres i
  | .pair f g => pair_pres (denote_pres f) (denote_pres g)
  | .cond b f => cond_pres b (denote_pres f)
  | .all ws => all_pres _ (denoteList_pres ws)
  | .sepList s ws =>
    separated_list_pres _ _ (denote_pres s) (denoteList_pres ws)

theorem denoteList_pres :
    (ws : WList) → ∀ f ∈ denoteList ws, Preserves f
  | .nil => by
    intro f hf
    rw [denoteList] at hf
    cases hf
  | .cons w ws => by
    intro f hf
    rw [denoteList] at hf
    rcases List.mem_cons.mp hf with h | h
    · exact h ▸ denote_pres w
    · exact denoteList_pres ws f h

end

/-- On success of `f`, `position` returns the span between the old and new
offsets of the (post-call) buffer, together with the continuation cursor. -/
theorem position_ok {f : Cursor → WResult} {c c' : Cursor}
    (h : f c = .ok c') :
    position f c = .pok ((c'.buf.drop c.off).take (c'.off - c.off)) c' := by
  rw [position, h]

/-- On failure of `f`, `position` propagates the failure. -/
theorem position_err {f : Cursor → WResult} {c : Cursor} {e : GenError}
    {b : List Nat} (h : f c = .err e b) : position f c = .perr e b := by
  rw [position, h]

/-- The loop of `separated_list` after the first element behaves as `_all`
over the elements each preceded by one `sep`. -/
theorem sepLoop_eq_all (sep : Cursor → WResult)
    (l : List (Cursor → WResult)) (c : Cursor) :
    sepLoop sep l c = _all (l.map (fun v => pair sep v)) c := by
  induction l generalizing c with
  | nil => rfl
  | cons v rest ih =>
    rw [sepLoop, List.map_cons, _all, pair]
    cases hs : sep c with
    | err e b => rfl
    | ok c1 =>
      dsimp only
      cases hv : v c1 with
      | err e b => rfl
      | ok c2 => exact ih c2

/-- C1: for a library writer `f` that succeeds on a cursor after writing
`N = c'.off - c.off` bytes, `position f` succeeds with a span of exactly
those `N` just-written bytes and the continuation cursor, whose remaining
length is the input's remaining length minus `N`; if `f` fails, `position f`
returns `f`'s error and no span.  The final conjunct instantiates the span
content at `slice d`: the captured span is the payload `d` itself. -/
theorem position_spec (w : W) (c : Cursor) (hwf : c.off ≤ c.buf.length) :
    (∀ c', denote w c = .ok c' →
      position (denote w) c =
        .pok ((c'.buf.drop c.off).take (c'.off - c.off)) c' ∧
      ((c'.buf.drop c.off).take (c'.off - c.off)).length = c'.off - c.off ∧
      remaining c' = remaining c - (c'.off - c.off)) ∧
    (∀ e b, denote w c = .err e b → position (denote w) c = .perr e b) ∧
    (∀ d : List Nat, d.length ≤ remaining c →
      position (slice d) c =
        .pok d ⟨writeBytes c.buf c.off d, c.off + d.length⟩) := by
  refine ⟨?_, ?_, ?_⟩
  · intro c' h
    obtain ⟨h1, h2, h3, h4⟩ := denote_pres w c c' hwf h
    refine ⟨position_ok h, ?_, ?_⟩
    · simp only [List.length_take, List.length_drop]
      omega
    · unfold remaining
      omega
  · intro e b h
    exact position_err h
  · intro d hd
    have hgo : slice d c = .ok ⟨writeBytes c.buf c.off d, c.off + d.length⟩ := by
      rw [slice, if_neg (by unfold remaining at hd ⊢; omega)]
    rw [position_ok hgo]
    congr 1
    show ((writeBytes c.buf c.off d).drop c.off).take
      (c.off + d.length - c.off) = d
    rw [drop_writeBytes _ _ _ hwf, Nat.add_sub_cancel_left, List.take_left]

/-- C1 witness: `position (slice [7,8])` over a fresh 3-byte buffer captures
exactly the two written bytes and continues at offset 2. -/
theorem position_spec_witness :
    position (denote (W.slice [7, 8])) ⟨[0, 0, 0], 0⟩ =
      .pok [7, 8] ⟨[7, 8, 0], 2⟩ :=
  ((position_spec (W.slice [7, 8]) ⟨[0, 0, 0], 0⟩ (by decide)).1
    ⟨[7, 8, 0], 2⟩ (by decide)).1

/-- C2: every primitive writer with exact required length `N`, on a cursor
with fewer than `N` remaining bytes, fails with `BufferTooSmall N` (the
payload's own length) and leaves every byte of the buffer unmodified. -/
theorem primitive_short_buffer (c : Cursor) :
    (∀ d : List Nat, remaining c < d.length →
      slice d c = .err (.BufferTooSmall d.length) c.buf) ∧
    (∀ d : List Nat, remaining c < d.length →
      string d c = .err (.BufferTooSmall d.length) c.buf) ∧
    (∀ n, remaining c < n → skip n c = .err (.BufferTooSmall n) c.buf) ∧
    (∀ i, remaining c < 1 → be_u8 i c = .err (.BufferTooSmall 1) c.buf) ∧
    (∀ i, remaining c < 2 → be_u16 i c = .err (.BufferTooSmall 2) c.buf) ∧
    (∀ i, remaining c < 4 → be_u32 i c = .err (.BufferTooSmall 4) c.buf) ∧
    (∀ i, remaining c < 8 → be_u64 i c = .err (.BufferTooSmall 8) c.buf) ∧
    (∀ i, remaining c < 1 → le_u8 i c = .err (.BufferTooSmall 1) c.buf) ∧
    (∀ i, remaining c < 2 → le_u16 i c = .err (.BufferTooSmall 2) c.buf) ∧
    (∀ i, remaining c < 4 → le_u32 i c = .err (.BufferTooSmall 4) c.buf) ∧
    (∀ i, remaining c < 8 → le_u64 i c = .err (.BufferTooSmall 8) c.buf) :=
  ⟨fun d h => by rw [slice, if_pos h],
   fun d h => by rw [string, if_pos h],
   fun n h => by rw [skip, if_pos h],
   fun i h => by rw [be_u8, if_pos h],
   fun i h => by rw [be_u16, if_pos h],
   fun i h => by rw [be_u32, if_pos h],
   fun i h => by rw [be_u64, if_pos h],
   fun i h => by rw [le_u8, if_pos h],
   fun i h => by rw [le_u16, if_pos h],
   fun i h => by rw [le_u32, if_pos h],
   fun i h => by rw [le_u64, if_pos h]⟩

/-- C2 witness: a 2-byte payload on a 1-byte buffer, and `be_u32` on a
2-byte buffer, fail with their own payload lengths and untouched buffers. -/
theorem primitive_short_buffer_witness :
    slice [5, 6] ⟨[0], 0⟩ = .err (.BufferTooSmall 2) [0] ∧
    be_u32 0 ⟨[0, 0], 0⟩ = .err (.BufferTooSmall 4) [0, 0] :=
  ⟨(primitive_short_buffer ⟨[0], 0⟩).1 [5, 6] (by decide),
   (primitive_short_buffer ⟨[0, 0], 0⟩).2.2.2.2.2.1 0 (by decide)⟩

/-- C3: the cursor a successful library writer call returns is a suffix of
the input cursor over the same backing buffer: same length, the prefix
before the old offset untouched, the offset advanced by the bytes written,
and the remaining length reduced by exactly that count. -/
theorem suffix_invariant (w : W) (c c' : Cursor)
    (hwf : c.off ≤ c.buf.length) (h : denote w c = .ok c') :
    c'.buf.length = c.buf.length ∧ c.off ≤ c'.off ∧
    c'.off ≤ c'.buf.length ∧ c'.buf.take c.off = c.buf.take c.off ∧
    remaining c' = remaining c - (c'.off - c.off) := by
  obtain ⟨h1, h2, h3, h4⟩ := denote_pres w c c' hwf h
  refine ⟨h1, h2, h3, h4, ?_⟩
  unfold remaining
  omega

/-- C3 witness: `slice [7,8]` on a fresh 3-byte buffer returns the suffix
cursor at offset 2 over the same (now written) buffer. -/
theorem suffix_invariant_witness :
    (Cursor.mk [7, 8, 0] 2).buf.length = (Cursor.mk [0, 0, 0] 0).buf.length ∧
    (Cursor.mk [0, 0, 0] 0).off ≤ (Cursor.mk [7, 8, 0] 2).off ∧
    (Cursor.mk [7, 8, 0] 2).off ≤ (Cursor.mk [7, 8, 0] 2).buf.length ∧
    (Cursor.mk [7, 8, 0] 2).buf.take (Cursor.mk [0, 0, 0] 0).off =
      (Cursor.mk [0, 0, 0] 0).buf.take (Cursor.mk [0, 0, 0] 0).off ∧
    remaining (Cursor.mk [7, 8, 0] 2) =
      remaining (Cursor.mk [0, 0, 0] 0) -
        ((Cursor.mk [7, 8, 0] 2).off - (Cursor.mk [0, 0, 0] 0).off) :=
  suffix_invariant (W.slice [7, 8]) ⟨[0, 0, 0], 0⟩ ⟨[7, 8, 0], 2⟩
    (by decide) (by decide)

/-- C4: `separated_list` writes nothing on an empty collection, a single
element bare (never invoking `sep`), and from the second element on one
`sep` before each element — equivalently, first element then `_all` over
`pair sep v` for the rest, which also fails at the first failing step.
Concretely, separator `0x2C` between single bytes 1, 2, 3 yields
`[1, 0x2C, 2, 0x2C, 3]`. -/
theorem separated_list_spec :
    (∀ (sep : Cursor → WResult) (c : Cursor),
      separated_list sep [] c = .ok c) ∧
    (∀ (sep v : Cursor → WResult) (c : Cursor),
      separated_list sep [v] c = v c) ∧
    (∀ (sep v : Cursor → WResult) (vs : List (Cursor → WResult))
      (c : Cursor),
      separated_list sep (v :: vs) c =
        pair v (_all (vs.map (fun w => pair sep w))) c) ∧
    separated_list (be_u8 0x2C) [be_u8 1, be_u8 2, be_u8 3]
      ⟨[0, 0, 0, 0, 0], 0⟩ = .ok ⟨[1, 0x2C, 2, 0x2C, 3], 5⟩ := by
  refine ⟨fun sep c => rfl, ?_, ?_, by decide⟩
  · intro sep v c
    rw [separated_list]
    cases hv : v c with
    | ok c1 => rfl
    | err e b => rfl
  · intro sep v vs c
    rw [separated_list, pair]
    cases hv : v c with
    | ok c1 => exact sepLoop_eq_all sep vs c1
    | err e b => rfl

/-- C5: the little-endian encoders emit exactly the byte sequence of the
big-endian encoders reversed; big-endian emits the most significant byte
first; `0x01020304` encodes big-endian as `[1,2,3,4]` (empty remainder) and
little-endian as `[4,3,2,1]`. -/
theorem endianness_spec :
    (∀ i, leBytes16 i = (beBytes16 i).reverse) ∧
    (∀ i, leBytes32 i = (beBytes32 i).reverse) ∧
    (∀ i, leBytes64 i = (beBytes64 i).reverse) ∧
    (∀ i, i < 2 ^ 16 → (beBytes16 i).head? = some (i / 2 ^ 8)) ∧
    (∀ i, i < 2 ^ 32 → (beBytes32 i).head? = some (i / 2 ^ 24)) ∧
    (∀ i, i < 2 ^ 64 → (beBytes64 i).head? = some (i / 2 ^ 56)) ∧
    (be_u32 0x01020304 ⟨[0, 0, 0, 0], 0⟩ =
        .ok ⟨[0x01, 0x02, 0x03, 0x04], 4⟩ ∧
      remaining ⟨[0x01, 0x02, 0x03, 0x04], 4⟩ = 0) ∧
    le_u32 0x01020304 ⟨[0, 0, 0, 0], 0⟩ =
      .ok ⟨[0x04, 0x03, 0x02, 0x01], 4⟩ := by
  refine ⟨fun i => rfl, fun i => rfl, fun i => rfl, ?_, ?_, ?_,
    by decide, by decide⟩
  · intro i hi
    have hlt : i / 2 ^ 8 < 256 := Nat.div_lt_of_lt_mul (by
      have h2 : (2 : Nat) ^ 8 * 256 = 2 ^ 16 := by norm_num
      omega)
    simp only [beBytes16, List.head?_cons]
    rw [Nat.shiftRight_eq_div_pow, Nat.mod_eq_of_lt hlt]
  · intro i hi
    have hlt : i / 2 ^ 24 < 256 := Nat.div_lt_of_lt_mul (by
      have h2 : (2 : Nat) ^ 24 * 256 = 2 ^ 32 := by norm_num
      omega)
    simp only [beBytes32, List.head?_cons]
    rw [Nat.shiftRight_eq_div_pow, Nat.mod_eq_of_lt hlt]
  · intro i hi
    have hlt : i / 2 ^ 56 < 256 := Nat.div_lt_of_lt_mul (by
      have h2 : (2 : Nat) ^ 56 * 256 = 2 ^ 64 := by norm_num
      omega)
    simp only [beBytes64, List.head?_cons]
    rw [Nat.shiftRight_eq_div_pow, Nat.mod_eq_of_lt hlt]

/-- C5 witness: the first byte each big-endian encoder emits is the most
significant byte of its value — `0x0102`, `0x01020304`, and
`0x0102030405060708` all start with `0x01`. -/
theorem endianness_spec_witness :
    (beBytes16 0x0102).head? = some (0x0102 / 2 ^ 8) ∧
    (beBytes32 0x01020304).head? = some (0x01020304 / 2 ^ 24) ∧
    (beBytes64 0x0102030405060708).head? =
      some (0x0102030405060708 / 2 ^ 56) :=
  ⟨endianness_spec.2.2.2.1 0x0102 (by norm_num),
   endianness_spec.2.2.2.2.1 0x01020304 (by norm_num),
   endianness_spec.2.2.2.2.2.1 0x0102030405060708 (by norm_num)⟩

/-- C6: `cond false f` always succeeds with the cursor unchanged without
invoking `f` — even where `f` itself would fail for insufficient space —
and `cond true f` is exactly `f`. -/
theorem cond_spec :
    (∀ (f : Cursor → WResult) (c : Cursor), cond false f c = .ok c) ∧
    (∀ (f : Cursor → WResult) (c : Cursor), cond true f c = f c) ∧
    cond false (be_u8 5) ⟨[], 0⟩ = .ok ⟨[], 0⟩ ∧
    be_u8 5 ⟨[], 0⟩ = .err (.BufferTooSmall 1) [] :=
  ⟨fun f c => rfl, fun f c => rfl, by decide, by decide⟩

/-- C7: if `first` fails, `pair first second` returns that exact failure and
`second` is never consulted; if `first` succeeds, the combined result is
exactly `second` applied to the cursor `first` returned. -/
theorem pair_spec (f g : Cursor → WResult) (c : Cursor) :
    (∀ e b, f c = .err e b → pair f g c = .err e b) ∧
    (∀ c', f c = .ok c' → pair f g c = g c') :=
  ⟨fun e b h => by rw [pair, h], fun c' h => by rw [pair, h]⟩

/-- C7 witness: with `first = be_u8 9` failing on an empty buffer, the pair
returns exactly that failure. -/
theorem pair_spec_witness :
    pair (be_u8 9) (be_u8 7) ⟨[], 0⟩ = .err (.BufferTooSmall 1) [] :=
  (pair_spec (be_u8 9) (be_u8 7) ⟨[], 0⟩).1 (.BufferTooSmall 1) []
    (by decide)

/-- C8: `_all` on an empty collection succeeds with the cursor unchanged;
it runs the writers in collection order threading the cursor (splitting the
collection anywhere splits the run); and it returns the first failure
without invoking any remaining writer. -/
theorem all_spec :
    (∀ c : Cursor, _all [] c = .ok c) ∧
    (∀ (l₁ l₂ : List (Cursor → WResult)) (c : Cursor),
      _all (l₁ ++ l₂) c = match _all l₁ c with
        | .ok c' => _all l₂ c'
        | .err e b => .err e b) ∧
    (∀ (v : Cursor → WResult) (l : List (Cursor → WResult)) (c : Cursor)
      (e : GenError) (b : List Nat),
      v c = .err e b → _all (v :: l) c = .err e b) := by
  refine ⟨fun c => rfl, ?_, ?_⟩
  · intro l₁ l₂ c
    induction l₁ generalizing c with
    | nil => rfl
    | cons v rest ih =>
      rw [List.cons_append, _all, _all]
      cases hv : v c with
      | ok c1 => exact ih c1
      | err e b => rfl
  · intro v l c e b h
    rw [_all, h]

/-- C8 witness: `_all` whose first writer fails on an empty buffer returns
that failure without running the second writer. -/
theorem all_spec_witness :
    _all [be_u8 9, be_u8 7] ⟨[], 0⟩ = .err (.BufferTooSmall 1) [] :=
  all_spec.2.2 (be_u8 9) [be_u8 7] ⟨[], 0⟩ (.BufferTooSmall 1) []
    (by decide)

/-- C9: `skip n` on a cursor with at least `n` remaining bytes succeeds,
advances by `n` (remaining length reduced by `n`), and leaves every byte of
the buffer — including the skipped ones — exactly as it was. -/
theorem skip_spec (n : Nat) (c : Cursor) (h : n ≤ remaining c) :
    skip n c = .ok ⟨c.buf, c.off + n⟩ ∧
    remaining ⟨c.buf, c.off + n⟩ = remaining c - n := by
  constructor
  · rw [skip, if_neg (by omega)]
  · simp only [remaining]
    omega

/-- C9 witness: skipping 2 bytes of a 3-byte buffer keeps all three bytes
and leaves one byte remaining. -/
theorem skip_spec_witness :
    skip 2 ⟨[9, 8, 7], 0⟩ = .ok ⟨[9, 8, 7], 2⟩ ∧
    remaining ⟨[9, 8, 7], 2⟩ = remaining ⟨[9, 8, 7], 0⟩ - 2 :=
  skip_spec 2 ⟨[9, 8, 7], 0⟩ (by decide)

/-- C10: `be_u8` and `le_u8` are extensionally equal: same byte written,
same successor cursor, same error on an empty cursor. -/
theorem be_u8_eq_le_u8 (i : Nat) (c : Cursor) : be_u8 i c = le_u8 i c := rfl

end CookieFactory
